import Mathlib

/-!
Shallow embedding of the `HuggingFaceFineTunedDemo` trading algorithm
(`06 Applied Machine Learning/18 Amazon Chronos Model/02 Fine-Tuned Model/main.py`).

Prices and weights are modelled as rationals; datetimes as integer seconds
(one day = 86400 seconds, matching Python `timedelta(80)` = 80 days).
External library calls (`scipy.optimize.minimize`, the Chronos pipeline's
`predict`, the framework's `history` feed, and the fallibility of each
external step) are modelled as explicit function or outcome parameters,
while all of the script's own logic is embedded directly.
-/

namespace ChronosDemo

/-- Asset identifiers (QuantConnect `Symbol` objects), modelled abstractly. -/
abbrev Symbol := Nat

/-- One day in seconds, the unit of Python `timedelta(days)`. -/
def daySecs : Int := 86400

/-- Numerical tolerance used by the spec for the weight-sum check (1e-6). -/
def tol : ℚ := 1 / 1000000

/-! ## Vector and matrix helpers (numpy / pandas operations used by the code) -/

/-- `np.dot` on two vectors: sum of elementwise products. -/
def dotProd (a b : List ℚ) : ℚ := (List.zipWith (· * ·) a b).sum

/-- `np.dot` of a matrix (list of rows) with a vector. -/
def matVec (m : List (List ℚ)) (v : List ℚ) : List ℚ := m.map (fun row => dotProd row v)

/-- Extract column `j` of a row-major matrix (missing entries default to 0;
the code only ever uses rectangular frames). -/
def colGet (rows : List (List ℚ)) (j : Nat) : List ℚ := rows.map (fun r => r.getD j 0)

/-- Number of columns of a row-major data frame (`df.shape[1]`). -/
def numCols (rows : List (List ℚ)) : Nat := rows.headI.length

/-- pandas `DataFrame.mean()`: per-column arithmetic mean. -/
def pandasMean (rows : List (List ℚ)) : List ℚ :=
  (List.range (numCols rows)).map (fun j => (colGet rows j).sum / (rows.length : ℚ))

/-- Sample covariance of two equally long series (`ddof = 1`, as pandas uses). -/
def sampleCov (xs ys : List ℚ) : ℚ :=
  let n : ℚ := (xs.length : ℚ)
  let mx := xs.sum / n
  let my := ys.sum / n
  (List.zipWith (fun x y => (x - mx) * (y - my)) xs ys).sum / (n - 1)

/-- pandas `DataFrame.cov()`: matrix of pairwise sample covariances of the columns. -/
def pandasCov (rows : List (List ℚ)) : List (List ℚ) :=
  (List.range (numCols rows)).map (fun j =>
    (List.range (numCols rows)).map (fun k => sampleCov (colGet rows j) (colGet rows k)))

/-- `_sharpe_ratio(self, weights, returns, risk_free_rate, trading_days_per_year=252)`.
`np.sqrt` is an external numerical routine, passed in as `sqrtFn`.  The body
mirrors the source line by line: annualize mean returns and covariance, form
the portfolio return and standard deviation, and return the negated Sharpe
ratio. -/
def sharpeObjective (sqrtFn : ℚ → ℚ) (weights : List ℚ) (returns : List (List ℚ))
    (risk_free_rate trading_days_per_year : ℚ) : ℚ :=
  let mean_returns := (pandasMean returns).map (· * trading_days_per_year)
  let cov_matrix := (pandasCov returns).map (fun row => row.map (· * trading_days_per_year))
  let portfolio_return := (List.zipWith (· * ·) mean_returns weights).sum
  let portfolio_std := sqrtFn (dotProd weights (matVec cov_matrix weights))
  let sharpe := (portfolio_return - risk_free_rate) / portfolio_std;
  -sharpe

/-! ## Portfolio optimizer (`_optimize_portfolio`) -/

/-- The object scipy's `minimize` returns: the final iterate `x` and the
convergence flag `success`.  (The source reads only `result.x`.) -/
structure SolverResult where
  x : List ℚ
  success : Bool

/-- The external SLSQP solver: takes the returns frame, the risk-free rate
(closed over in `args`) and the initial guess, and produces a `SolverResult`. -/
abbrev SolverFn := List (List ℚ) → ℚ → List ℚ → SolverResult

/-- What scipy's SLSQP guarantees for the call made by the source
(`bounds = (0,1)` per asset, equality constraint `sum(weights) - 1 = 0`):
the final iterate always has the shape of the initial guess, and on
`success` it satisfies the bounds and the equality constraint within
tolerance.  On failure the iterate is unconstrained. -/
def SLSQPSound (solve : SolverFn) : Prop :=
  ∀ R r g, (solve R r g).x.length = g.length ∧
    ((solve R r g).success = true →
      (∀ w ∈ (solve R r g).x, 0 ≤ w ∧ w ≤ 1) ∧ |(solve R r g).x.sum - 1| ≤ tol)

/-- `equity_curves.pct_change().dropna()`: row-over-row relative changes; the
first row (all-missing after `pct_change`) is dropped. -/
def pct_change_dropna (curves : List (List ℚ)) : List (List ℚ) :=
  (List.zip (curves.drop 1) curves).map (fun cp => List.zipWith (fun c p => (c - p) / p) cp.1 cp.2)

/-- `_optimize_portfolio(self, equity_curves)`: computes returns, builds the
equal-weight initial guess, calls the solver once, and returns `result.x`
unconditionally — `result.success` is never consulted. -/
def optimize_portfolio (solve : SolverFn) (equity_curves : List (List ℚ)) (rfr : ℚ) : List ℚ :=
  let returns := pct_change_dropna equity_curves
  let num_assets := numCols returns
  let initial_guess := List.replicate num_assets (1 / (num_assets : ℚ))
  let result := solve returns rfr initial_guess
  result.x

/-- A sound model of SLSQP stuck at an infeasible iterate: it reports
failure, and its final iterate violates the sum-to-one constraint. -/
def slsqpStuck : SolverFn := fun _ _ g => ⟨List.replicate g.length (7 / 10), false⟩

/-- A sound model of SLSQP failing immediately: it reports failure and its
final iterate is the (equal-weight) initial guess. -/
def slsqpFailInit : SolverFn := fun _ _ g => ⟨g, false⟩

/-- A sound model of SLSQP converging on two-asset problems. -/
def slsqpOk : SolverFn := fun _ _ g =>
  if g.length = 2 then ⟨[1 / 2, 1 / 2], true⟩ else ⟨List.replicate g.length 0, false⟩

/-! ## History columns, dropna and daily resampling -/

/-- A close-price column of `self.history(...)['close'].unstack(0)`: per
symbol, a time-indexed series of (day number, optional price); `none` is a
missing value (NaN). -/
abbrev HistoryData := Symbol → List (Int × Option ℚ)

/-- `df.dropna()` on one time-indexed column: keep exactly the (date, price)
pairs that have a value. -/
def dropnaPairs (col : List (Int × Option ℚ)) : List (Int × ℚ) :=
  col.filterMap (fun dp => dp.2.map (fun v => (dp.1, v)))

/-- The raw value sequence `history[symbol].dropna()` handed to
`torch.tensor` for forecasting. -/
def seriesVals (history : HistoryData) (s : Symbol) : List ℚ :=
  (dropnaPairs (history s)).map Prod.snd

/-- A concrete two-symbol history for witnesses: symbol 0 has 12 daily
observations, symbol 1 has only 2 valid observations among 3 rows. -/
def histW : HistoryData := fun s =>
  if s = 0 then (List.range 12).map (fun i => ((i : Int), some ((i : ℚ) + 1)))
  else [(0, some 5), (1, none), (2, some 6)]

/-- A concrete sample-path forecaster for witnesses: three sampled paths of
two future steps each, whatever the input series. -/
def predictW : List ℚ → List (List ℚ) := fun _ => [[1, 2], [3, 4], [5, 6]]

/-- `index.min()` of a non-empty date-indexed frame (junk 0 on empty). -/
def dateMin : List (Int × ℚ) → Int
  | [] => 0
  | p :: ps => ps.foldl (fun m q => min m q.1) p.1

/-- `index.max()` of a non-empty date-indexed frame (junk 0 on empty). -/
def dateMax : List (Int × ℚ) → Int
  | [] => 0
  | p :: ps => ps.foldl (fun m q => max m q.1) p.1

/-- Look a date up in the (date, price) pairs, first match wins. -/
def assocLookup (d : Int) (pairs : List (Int × ℚ)) : Option ℚ :=
  (pairs.find? (fun p => p.1 == d)).map Prod.snd

/-- `adjusted_df.resample('D').asfreq()`: re-index onto every calendar day
from the first to the last date of the frame; days present keep their
value, absent days get an explicit missing marker, nothing is filled. -/
def resampleD_asfreq (pairs : List (Int × ℚ)) : List (Int × Option ℚ) :=
  match pairs with
  | [] => []
  | _ :: _ =>
    (List.range ((dateMax pairs - dateMin pairs).toNat + 1)).map
      (fun i : Nat => (dateMin pairs + (i : Int), assocLookup (dateMin pairs + (i : Int)) pairs))

/-! ## Median forecast (`np.quantile(..., 0.5, axis=0)`) -/

/-- `np.quantile(values, 0.5)` with numpy's default linear interpolation:
position `h = 0.5 * (n - 1)` into the sorted values, `i = ⌊h⌋`, and the
result is `s[i] + (h - i) * (s[i+1] - s[i])`. -/
def npQuantileHalf (values : List ℚ) : ℚ :=
  let s := values.mergeSort (fun a b => decide (a ≤ b))
  let n := values.length
  if n = 0 then 0
  else
    let h : ℚ := (1 / 2) * ((n : ℚ) - 1)
    let i : Nat := ⌊h⌋.toNat
    let g : ℚ := h - (i : ℚ)
    s.getD i 0 + g * (s.getD (i + 1) 0 - s.getD i 0)

/-- The textbook median: middle element of the sorted values when the count
is odd, the average of the two middle elements when it is even. -/
def median (values : List ℚ) : ℚ :=
  let s := values.mergeSort (fun a b => decide (a ≤ b))
  let n := values.length
  if n % 2 = 1 then s.getD (n / 2) 0
  else (s.getD (n / 2 - 1) 0 + s.getD (n / 2) 0) / 2

/-- The Chronos pipeline's `predict` on one raw price series: a set of
sampled future paths (`num_samples` rows, `prediction_length` columns),
supplied externally. -/
abbrev PredictFn := List ℚ → List (List ℚ)

/-- `np.quantile(samples, 0.5, axis=0)`: the per-time-step 0.5 quantile
across the sample paths. -/
def quantileAxis0Half (samples : List (List ℚ)) : List ℚ :=
  (List.range (numCols samples)).map
    (fun t => npQuantileHalf (samples.map (fun row => row.getD t 0)))

/-! ## The rebalance body of `_trade` (after the scheduling gates) -/

/-- Everything one rebalance cycle of `_trade` computes, in source order:
the filtered training dictionary's key list (`tradable_symbols`), the
column labels of `forecasts_df`, the median forecast per column, the
optimizer's weights, and the `PortfolioTarget(symbol, weights[i])` list
passed to `set_holdings`. -/
structure RebalanceOutput where
  tradableSymbols : List Symbol
  forecastColumns : List Symbol
  forecasts : List (Symbol × List ℚ)
  optimalWeights : List ℚ
  targets : List (Symbol × ℚ)

/-- The data flow of `_trade` lines 127-196: build
`training_data_by_symbol` by dropping assets with fewer than 10 valid
observations (storing the daily-resampled frame), take its keys as
`tradable_symbols`, forecast each tradable symbol's raw dropna series,
reduce samples to the per-step median, optimize on the forecast frame, and
emit one target per tradable symbol at its positional weight.  (The
fine-tuning call between filtering and forecasting only produces the model
the external `predictFn` already closes over.) -/
def rebalance (solve : SolverFn) (predictFn : PredictFn) (symbols : List Symbol)
    (history : HistoryData) (rfr : ℚ) : RebalanceOutput :=
  let training_data_by_symbol : List (Symbol × List (Int × Option ℚ)) :=
    symbols.filterMap (fun s =>
      let df := dropnaPairs (history s)
      if df.length < 10 then none
      else some (s, resampleD_asfreq df))
  let tradable_symbols := training_data_by_symbol.map Prod.fst
  let all_forecasts := tradable_symbols.map (fun s => predictFn (seriesVals history s))
  let forecasts := tradable_symbols.zip (all_forecasts.map quantileAxis0Half)
  let horizon := (forecasts.headI.2).length
  let equity_rows := (List.range horizon).map (fun t => forecasts.map (fun c => c.2.getD t 0))
  let optimal_weights := optimize_portfolio solve equity_rows rfr
  let targets := tradable_symbols.enum.map (fun p => (p.2, optimal_weights.getD p.1 0))
  ⟨tradable_symbols, forecasts.map Prod.fst, forecasts, optimal_weights, targets⟩

/-! ## `_trade` with its scheduling gates and failure propagation -/

/-- Which external step of a rebalance cycle raised. -/
inductive StepError
  | historyError
  | trainError
  | forecastError
  | optimizeError
deriving DecidableEq

/-- The observable outcome of one `_trade` call: whether the scheduling
gates passed, the value of `self._last_rebalance` afterwards, the list of
`set_holdings` invocations made (each with its targets), and the exception
that propagated, if any. -/
structure TradeResult where
  rebalanced : Bool
  lastRebalance : Int
  holdingsCalls : List (List (Symbol × ℚ))
  error : Option StepError

/-- `_trade` in full: return during warm-up; return when fewer than 80 days
passed since the last rebalance; otherwise advance `_last_rebalance` to the
current time and run the cycle, where each external step (history fetch,
fine-tuning, forecasting, solver call) may raise and aborts the rest; the
single `set_holdings` call happens only after every step succeeded. -/
def trade (isWarmingUp : Bool) (time lastRebalance : Int)
    (historyRes : Except StepError HistoryData) (trainRes : Except StepError Unit)
    (predictRes : Except StepError PredictFn) (solveRes : Except StepError SolverFn)
    (symbols : List Symbol) (rfr : ℚ) : TradeResult :=
  if isWarmingUp then ⟨false, lastRebalance, [], none⟩
  else if time - lastRebalance < 80 * daySecs then ⟨false, lastRebalance, [], none⟩
  else
    match historyRes with
    | .error e => ⟨true, time, [], some e⟩
    | .ok history =>
      match trainRes with
      | .error e => ⟨true, time, [], some e⟩
      | .ok _ =>
        match predictRes with
        | .error e => ⟨true, time, [], some e⟩
        | .ok predictFn =>
          match solveRes with
          | .error e => ⟨true, time, [], some e⟩
          | .ok solve =>
            ⟨true, time, [(rebalance solve predictFn symbols history rfr).targets], none⟩

/-! ## Theorems -/

theorem dotProd_comm (a b : List ℚ) : dotProd a b = dotProd b a := by
  unfold dotProd
  induction a generalizing b with
  | nil => cases b <;> simp
  | cons x xs ih =>
    cases b with
    | nil => simp
    | cons y ys => simp [List.zipWith, ih, mul_comm]

/-- C8: `_sharpe_ratio(w, R, r)` equals the negative of
`(w·(mean(R)*252) - r) / sqrt(w·(cov(R)*252)·w)`: the negated annualized
Sharpe ratio, with mean returns and covariance both scaled by 252. -/
theorem sharpeObjective_eq_neg_annualized (sqrtFn : ℚ → ℚ) (w : List ℚ)
    (R : List (List ℚ)) (r : ℚ) :
    sharpeObjective sqrtFn w R r 252 =
      -((dotProd w ((pandasMean R).map (· * 252)) - r) /
        sqrtFn (dotProd w (matVec ((pandasCov R).map (fun row => row.map (· * 252))) w))) := by
  unfold sharpeObjective
  dsimp only
  rw [dotProd_comm w ((pandasMean R).map (· * 252))]
  rfl

theorem pct_change_numCols (curves : List (List ℚ)) (k : Nat)
    (hrect : ∀ row ∈ curves, row.length = k) (h2 : 2 ≤ curves.length) :
    numCols (pct_change_dropna curves) = k := by
  match curves, h2 with
  | c0 :: c1 :: rest, _ =>
    have h0 : c0.length = k := hrect c0 (by simp)
    have h1 : c1.length = k := hrect c1 (by simp)
    simp [pct_change_dropna, numCols, List.headI, h0, h1]

theorem slsqpStuck_sound : SLSQPSound slsqpStuck := by
  intro R r g
  refine ⟨by simp [slsqpStuck], ?_⟩
  intro h
  simp [slsqpStuck] at h

theorem slsqpFailInit_sound : SLSQPSound slsqpFailInit := by
  intro R r g
  refine ⟨rfl, ?_⟩
  intro h
  simp [slsqpFailInit] at h

theorem slsqpOk_sound : SLSQPSound slsqpOk := by
  intro R r g
  unfold slsqpOk
  by_cases h : g.length = 2
  · refine ⟨by simp [h], ?_⟩
    intro _
    constructor
    · intro w hw
      simp [h] at hw
      rw [hw]
      norm_num
    · simp [h, tol]
      norm_num
  · refine ⟨by simp [h], ?_⟩
    intro hs
    simp [h] at hs

/-- C1 (amended): whenever the solver run actually converges
(`result.success`), `_optimize_portfolio` returns one weight per asset
column of the equity-curve frame, each weight in `[0,1]`, summing to 1
within `1e-6`.  (Unconditionally, the claim is false: see the
counterexample.) -/
theorem optimize_portfolio_simplex (solve : SolverFn) (hs : SLSQPSound solve)
    (curves : List (List ℚ)) (rfr : ℚ) (k : Nat)
    (hrect : ∀ row ∈ curves, row.length = k) (h2 : 2 ≤ curves.length)
    (hsucc : (solve (pct_change_dropna curves) rfr
        (List.replicate k (1 / (k : ℚ)))).success = true) :
    (optimize_portfolio solve curves rfr).length = k ∧
    (∀ w ∈ optimize_portfolio solve curves rfr, 0 ≤ w ∧ w ≤ 1) ∧
    |(optimize_portfolio solve curves rfr).sum - 1| ≤ tol := by
  have hk := pct_change_numCols curves k hrect h2
  unfold optimize_portfolio
  dsimp only
  rw [hk]
  obtain ⟨hlen, hpost⟩ := hs (pct_change_dropna curves) rfr (List.replicate k (1 / (k : ℚ)))
  obtain ⟨hbounds, hsum⟩ := hpost hsucc
  exact ⟨by rw [hlen]; simp, hbounds, hsum⟩

theorem optimize_portfolio_simplex_wit :
    (optimize_portfolio slsqpOk [[1, 2], [2, 4], [4, 2]] 0).length = 2 ∧
    (∀ w ∈ optimize_portfolio slsqpOk [[1, 2], [2, 4], [4, 2]] 0, 0 ≤ w ∧ w ≤ 1) ∧
    |(optimize_portfolio slsqpOk [[1, 2], [2, 4], [4, 2]] 0).sum - 1| ≤ tol :=
  optimize_portfolio_simplex slsqpOk slsqpOk_sound [[1, 2], [2, 4], [4, 2]] 0 2
    (by decide) (by decide) (by decide)

/-- C1 (counterexample): with a sound model of SLSQP that fails to converge
and is left at an infeasible iterate, `_optimize_portfolio` on a concrete
non-empty returns matrix returns `[0.7, 0.7]`, whose sum is not within
`1e-6` of 1 — the code never checks `result.success`, so the claimed
unconditional simplex property fails. -/
theorem optimize_portfolio_simplex_cex :
    SLSQPSound slsqpStuck ∧
    optimize_portfolio slsqpStuck [[1, 2], [2, 1], [1, 2]] 0 = [7 / 10, 7 / 10] ∧
    ¬ |(optimize_portfolio slsqpStuck [[1, 2], [2, 1], [1, 2]] 0).sum - 1| ≤ tol := by
  refine ⟨slsqpStuck_sound, ?_, ?_⟩ <;>
    norm_num [optimize_portfolio, pct_change_dropna, numCols, slsqpStuck,
      List.headI, List.zip, tol, List.replicate]
  rw [abs_of_nonneg (by norm_num : (0 : ℚ) ≤ 2 / 5)]
  norm_num

/-- C2: when the solver fails to converge (here: a sound model of SLSQP
failing on a degenerate constant equity-curve frame, whose returns are all
zero and whose covariance matrix is singular), `_optimize_portfolio`
silently returns the equal-weight initial guess `[1/2, 1/2]` — there is no
check of `result.success` anywhere, so the failure is not surfaced and the
rebalance proceeds.  This contradicts the spec's explicit-failure
requirement. -/
theorem optimize_portfolio_silent_on_failure :
    SLSQPSound slsqpFailInit ∧
    (slsqpFailInit (pct_change_dropna [[1, 1], [1, 1], [1, 1]]) 0
        (List.replicate 2 ((1 : ℚ) / 2))).success = false ∧
    optimize_portfolio slsqpFailInit [[1, 1], [1, 1], [1, 1]] 0 = [1 / 2, 1 / 2] := by
  refine ⟨slsqpFailInit_sound, ?_, ?_⟩ <;>
    norm_num [optimize_portfolio, pct_change_dropna, numCols, slsqpFailInit,
      List.headI, List.zip, List.replicate]

/-- C3: with last-rebalance time `T`, a tick at `T + 79` days is a complete
no-op (the method returns before any history fetch or training, whatever
those steps would do); a tick at `T + 81` days passes the gate and
rebalances (the marker moves to the tick time); and any tick during
warm-up is a complete no-op. -/
theorem trade_schedule (T : Int) (hR : Except StepError HistoryData)
    (tR : Except StepError Unit) (pR : Except StepError PredictFn)
    (sR : Except StepError SolverFn) (syms : List Symbol) (rfr : ℚ) :
    trade false (T + 79 * daySecs) T hR tR pR sR syms rfr = ⟨false, T, [], none⟩ ∧
    (trade false (T + 81 * daySecs) T hR tR pR sR syms rfr).rebalanced = true ∧
    (trade false (T + 81 * daySecs) T hR tR pR sR syms rfr).lastRebalance
      = T + 81 * daySecs ∧
    ∀ (t l : Int) (hR2 : Except StepError HistoryData) (tR2 : Except StepError Unit)
      (pR2 : Except StepError PredictFn) (sR2 : Except StepError SolverFn)
      (syms2 : List Symbol) (rfr2 : ℚ),
      trade true t l hR2 tR2 pR2 sR2 syms2 rfr2 = ⟨false, l, [], none⟩ := by
  refine ⟨by norm_num [trade, daySecs], ?_, ?_, ?_⟩
  · rcases hR with e | h <;> rcases tR with e2 | t2 <;> rcases pR with e3 | p3 <;>
      rcases sR with e4 | s4 <;> norm_num [trade, daySecs]
  · rcases hR with e | h <;> rcases tR with e2 | t2 <;> rcases pR with e3 | p3 <;>
      rcases sR with e4 | s4 <;> norm_num [trade, daySecs]
  · intro t l hR2 tR2 pR2 sR2 syms2 rfr2
    simp [trade]

/-- C10: once the warm-up and 80-day gates pass, `self._last_rebalance` is
set to the tick time before any fallible step runs — so it equals the tick
time for every combination of step outcomes, failures included — and every
subsequent tick within the following 80 days is a complete no-op rather
than a retry. -/
theorem trade_marker_advances_first (time last : Int)
    (hR : Except StepError HistoryData) (tR : Except StepError Unit)
    (pR : Except StepError PredictFn) (sR : Except StepError SolverFn)
    (syms : List Symbol) (rfr : ℚ)
    (hgap : ¬ time - last < 80 * daySecs) :
    (trade false time last hR tR pR sR syms rfr).lastRebalance = time ∧
    ∀ (t2 : Int) (hR2 : Except StepError HistoryData) (tR2 : Except StepError Unit)
      (pR2 : Except StepError PredictFn) (sR2 : Except StepError SolverFn)
      (syms2 : List Symbol) (rfr2 : ℚ), t2 - time < 80 * daySecs →
      trade false t2 time hR2 tR2 pR2 sR2 syms2 rfr2 = ⟨false, time, [], none⟩ := by
  constructor
  · rcases hR with e | h <;> rcases tR with e2 | t2 <;> rcases pR with e3 | p3 <;>
      rcases sR with e4 | s4 <;> simp [trade, hgap]
  · intro t2 hR2 tR2 pR2 sR2 syms2 rfr2 hlt
    simp [trade, hlt]

theorem trade_marker_advances_first_wit :
    (trade false (81 * daySecs) 0 (Except.ok (fun _ => [])) (Except.error .trainError)
        (Except.ok (fun _ => [])) (Except.ok slsqpFailInit) [] 0).lastRebalance
      = 81 * daySecs ∧
    trade false (160 * daySecs) (81 * daySecs) (Except.ok (fun _ => []))
        (Except.ok ()) (Except.ok (fun _ => [])) (Except.ok slsqpFailInit) [] 0 =
      ⟨false, 81 * daySecs, [], none⟩ := by
  have h := trade_marker_advances_first (81 * daySecs) 0 (Except.ok (fun _ => []))
      (Except.error .trainError) (Except.ok (fun _ => [])) (Except.ok slsqpFailInit) [] 0
      (by decide)
  exact ⟨h.1, h.2 (160 * daySecs) (Except.ok (fun _ => [])) (Except.ok ())
      (Except.ok (fun _ => [])) (Except.ok slsqpFailInit) [] 0 (by decide)⟩

/-- C5: a rebalance cycle is atomic for holdings.  If any step raised, no
`set_holdings` call is made; if the gates did not pass, nothing is emitted
and the marker stays; and if the cycle completed without error, exactly one
`set_holdings` call is made, carrying the targets of the full rebalance
computation. -/
theorem trade_atomic (iw : Bool) (time last : Int)
    (hR : Except StepError HistoryData) (tR : Except StepError Unit)
    (pR : Except StepError PredictFn) (sR : Except StepError SolverFn)
    (syms : List Symbol) (rfr : ℚ) :
    ((trade iw time last hR tR pR sR syms rfr).error.isSome = true →
      (trade iw time last hR tR pR sR syms rfr).holdingsCalls = []) ∧
    ((trade iw time last hR tR pR sR syms rfr).rebalanced = false →
      (trade iw time last hR tR pR sR syms rfr).holdingsCalls = [] ∧
      (trade iw time last hR tR pR sR syms rfr).lastRebalance = last) ∧
    ((trade iw time last hR tR pR sR syms rfr).error = none →
      (trade iw time last hR tR pR sR syms rfr).rebalanced = true →
      ∃ history predictFn solve,
        hR = Except.ok history ∧ pR = Except.ok predictFn ∧ sR = Except.ok solve ∧
        (trade iw time last hR tR pR sR syms rfr).holdingsCalls =
          [(rebalance solve predictFn syms history rfr).targets]) := by
  cases iw
  · by_cases hlt : time - last < 80 * daySecs
    · refine ⟨?_, ?_, ?_⟩
      · intro _
        simp [trade, hlt]
      · intro _
        constructor <;> simp [trade, hlt]
      · intro _ hr
        simp [trade, hlt] at hr
    · rcases hR with e | h
      · refine ⟨?_, ?_, ?_⟩
        · intro _
          simp [trade, hlt]
        · intro hr
          simp [trade, hlt] at hr
        · intro he _
          simp [trade, hlt] at he
      · rcases tR with e2 | t2
        · refine ⟨?_, ?_, ?_⟩
          · intro _
            simp [trade, hlt]
          · intro hr
            simp [trade, hlt] at hr
          · intro he _
            simp [trade, hlt] at he
        · rcases pR with e3 | p3
          · refine ⟨?_, ?_, ?_⟩
            · intro _
              simp [trade, hlt]
            · intro hr
              simp [trade, hlt] at hr
            · intro he _
              simp [trade, hlt] at he
          · rcases sR with e4 | s4
            · refine ⟨?_, ?_, ?_⟩
              · intro _
                simp [trade, hlt]
              · intro hr
                simp [trade, hlt] at hr
              · intro he _
                simp [trade, hlt] at he
            · refine ⟨?_, ?_, ?_⟩
              · intro hsome
                simp [trade, hlt] at hsome
              · intro hr
                simp [trade, hlt] at hr
              · intro _ _
                exact ⟨h, p3, s4, rfl, rfl, rfl, by simp [trade, hlt]⟩
  · refine ⟨?_, ?_, ?_⟩
    · intro _
      simp [trade]
    · intro _
      constructor <;> simp [trade]
    · intro _ hr
      simp [trade] at hr

theorem trade_atomic_wit :
    (trade false (81 * daySecs) 0 (Except.error .historyError) (Except.ok ())
        (Except.ok (fun _ => [])) (Except.ok slsqpFailInit) [] 0).holdingsCalls = [] :=
  (trade_atomic false (81 * daySecs) 0 (Except.error .historyError) (Except.ok ())
      (Except.ok (fun _ => [])) (Except.ok slsqpFailInit) [] 0).1 (by decide)

theorem npQuantileHalf_eq_median (l : List ℚ) : npQuantileHalf l = median l := by
  unfold npQuantileHalf median
  dsimp only
  by_cases h0 : l.length = 0
  · have hl : l = [] := List.length_eq_zero.mp h0
    subst hl
    simp
  · rw [if_neg h0]
    rcases Nat.even_or_odd l.length with ⟨k, hk⟩ | ⟨k, hk⟩
    · have hkpos : 1 ≤ k := by omega
      have hfloor : ⌊(1 : ℚ) / 2 * ((l.length : ℚ) - 1)⌋ = (k : ℤ) - 1 := by
        have hcast : (1 : ℚ) / 2 * ((l.length : ℚ) - 1) = ((k : ℤ) - 1 : ℤ) + (1 : ℚ) / 2 := by
          push_cast [hk]
          ring
        rw [hcast, Int.floor_int_add]
        norm_num
      have htonat : ((k : ℤ) - 1).toNat = k - 1 := by omega
      rw [hfloor, htonat]
      have hg : (1 : ℚ) / 2 * ((l.length : ℚ) - 1) - ((k - 1 : ℕ) : ℚ) = 1 / 2 := by
        rw [Nat.cast_sub hkpos]
        push_cast [hk]
        ring
      rw [hg]
      have hsucc : k - 1 + 1 = k := by omega
      rw [hsucc]
      rw [if_neg (by omega : ¬ l.length % 2 = 1)]
      have hdiv : l.length / 2 = k := by omega
      rw [hdiv]
      ring
    · have hfloor : ⌊(1 : ℚ) / 2 * ((l.length : ℚ) - 1)⌋ = (k : ℤ) := by
        have hcast : (1 : ℚ) / 2 * ((l.length : ℚ) - 1) = ((k : ℕ) : ℚ) := by
          push_cast [hk]
          ring
        rw [hcast, Int.floor_natCast]
      rw [hfloor, Int.toNat_natCast]
      have hg : (1 : ℚ) / 2 * ((l.length : ℚ) - 1) - (k : ℚ) = 0 := by
        push_cast [hk]
        ring
      rw [hg]
      rw [if_pos (by omega : l.length % 2 = 1)]
      have hdiv : l.length / 2 = k := by omega
      rw [hdiv]
      ring

theorem rebalance_tradable_def (solve : SolverFn) (predictFn : PredictFn)
    (symbols : List Symbol) (history : HistoryData) (rfr : ℚ) :
    (rebalance solve predictFn symbols history rfr).tradableSymbols =
      (symbols.filterMap (fun s =>
        if (dropnaPairs (history s)).length < 10 then none
        else some (s, resampleD_asfreq (dropnaPairs (history s))))).map Prod.fst := rfl

theorem rebalance_forecasts_def (solve : SolverFn) (predictFn : PredictFn)
    (symbols : List Symbol) (history : HistoryData) (rfr : ℚ) :
    (rebalance solve predictFn symbols history rfr).forecasts =
      (rebalance solve predictFn symbols history rfr).tradableSymbols.zip
        (((rebalance solve predictFn symbols history rfr).tradableSymbols.map
          (fun s => predictFn (seriesVals history s))).map quantileAxis0Half) := rfl

theorem rebalance_columns_def (solve : SolverFn) (predictFn : PredictFn)
    (symbols : List Symbol) (history : HistoryData) (rfr : ℚ) :
    (rebalance solve predictFn symbols history rfr).forecastColumns =
      (rebalance solve predictFn symbols history rfr).forecasts.map Prod.fst := rfl

theorem rebalance_targets_def (solve : SolverFn) (predictFn : PredictFn)
    (symbols : List Symbol) (history : HistoryData) (rfr : ℚ) :
    (rebalance solve predictFn symbols history rfr).targets =
      (rebalance solve predictFn symbols history rfr).tradableSymbols.enum.map
        (fun p => (p.2,
          (rebalance solve predictFn symbols history rfr).optimalWeights.getD p.1 0)) := rfl

theorem rebalance_columns_eq (solve : SolverFn) (predictFn : PredictFn)
    (symbols : List Symbol) (history : HistoryData) (rfr : ℚ) :
    (rebalance solve predictFn symbols history rfr).forecastColumns =
      (rebalance solve predictFn symbols history rfr).tradableSymbols := by
  rw [rebalance_columns_def, rebalance_forecasts_def]
  apply List.map_fst_zip
  simp

theorem rebalance_targets_fst_eq (solve : SolverFn) (predictFn : PredictFn)
    (symbols : List Symbol) (history : HistoryData) (rfr : ℚ) :
    ((rebalance solve predictFn symbols history rfr).targets).map Prod.fst =
      (rebalance solve predictFn symbols history rfr).tradableSymbols := by
  rw [rebalance_targets_def, List.map_map]
  exact List.enum_map_snd _

/-- C4: within one rebalance cycle, the tradable-symbol list, the column
labels of the forecast frame, and the symbols of the emitted portfolio
targets are the identical list in the same order, and the `i`-th target
pairs the `i`-th tradable symbol with weight `i`. -/
theorem rebalance_positional_alignment (solve : SolverFn) (predictFn : PredictFn)
    (symbols : List Symbol) (history : HistoryData) (rfr : ℚ) :
    (rebalance solve predictFn symbols history rfr).forecastColumns =
      (rebalance solve predictFn symbols history rfr).tradableSymbols ∧
    ((rebalance solve predictFn symbols history rfr).targets).map Prod.fst =
      (rebalance solve predictFn symbols history rfr).tradableSymbols ∧
    ∀ i : Nat,
      (rebalance solve predictFn symbols history rfr).targets.get? i =
        ((rebalance solve predictFn symbols history rfr).tradableSymbols.get? i).map
          (fun s => (s,
            (rebalance solve predictFn symbols history rfr).optimalWeights.getD i 0)) := by
  refine ⟨rebalance_columns_eq solve predictFn symbols history rfr,
    rebalance_targets_fst_eq solve predictFn symbols history rfr, ?_⟩
  intro i
  rw [rebalance_targets_def, List.get?_map, List.get?_enum, Option.map_map]
  rfl

/-- C6: an asset whose dropna'd history has fewer than 10 observations is
excluded from the training dictionary, hence never a tradable symbol, never
a forecast column, and never receives a portfolio target in that cycle. -/
theorem rebalance_excludes_sparse (solve : SolverFn) (predictFn : PredictFn)
    (symbols : List Symbol) (history : HistoryData) (rfr : ℚ) (s : Symbol)
    (hs : (dropnaPairs (history s)).length < 10) :
    s ∉ (rebalance solve predictFn symbols history rfr).tradableSymbols ∧
    s ∉ (rebalance solve predictFn symbols history rfr).forecastColumns ∧
    s ∉ ((rebalance solve predictFn symbols history rfr).targets).map Prod.fst := by
  have hmain : s ∉ (rebalance solve predictFn symbols history rfr).tradableSymbols := by
    rw [rebalance_tradable_def]
    intro hmem
    rw [List.mem_map] at hmem
    obtain ⟨p, hp, hps⟩ := hmem
    rw [List.mem_filterMap] at hp
    obtain ⟨a, _, hfa⟩ := hp
    by_cases hlen : (dropnaPairs (history a)).length < 10
    · rw [if_pos hlen] at hfa
      exact Option.noConfusion hfa
    · rw [if_neg hlen] at hfa
      have hpa : p = (a, resampleD_asfreq (dropnaPairs (history a))) :=
        (Option.some_inj.mp hfa).symm
      rw [hpa] at hps
      dsimp at hps
      rw [hps] at hlen
      exact hlen hs
  rw [rebalance_columns_eq, rebalance_targets_fst_eq]
  exact ⟨hmain, hmain, hmain⟩

theorem rebalance_excludes_sparse_wit :
    (dropnaPairs (histW 1)).length < 10 ∧
    1 ∉ (rebalance slsqpFailInit predictW [0, 1] histW 0).tradableSymbols ∧
    1 ∉ (rebalance slsqpFailInit predictW [0, 1] histW 0).forecastColumns ∧
    1 ∉ ((rebalance slsqpFailInit predictW [0, 1] histW 0).targets).map Prod.fst := by
  have h := rebalance_excludes_sparse slsqpFailInit predictW [0, 1] histW 0 1 (by decide)
  exact ⟨by decide, h.1, h.2.1, h.2.2⟩

/-- C9: the per-asset forecast handed downstream is, column by column, the
per-time-step median across that asset's sampled future paths: the
forecast list pairs each tradable symbol with the path whose entry at step
`t` is the median of the sampled values at `t`. -/
theorem rebalance_forecasts_are_medians (solve : SolverFn) (predictFn : PredictFn)
    (symbols : List Symbol) (history : HistoryData) (rfr : ℚ) :
    (rebalance solve predictFn symbols history rfr).forecasts =
      (rebalance solve predictFn symbols history rfr).tradableSymbols.map (fun s =>
        (s, (List.range (numCols (predictFn (seriesVals history s)))).map
              (fun t => median ((predictFn (seriesVals history s)).map
                (fun row => row.getD t 0))))) := by
  rw [rebalance_forecasts_def, List.map_map]
  have hzip := List.zip_map' id
    (quantileAxis0Half ∘ fun s => predictFn (seriesVals history s))
    (rebalance solve predictFn symbols history rfr).tradableSymbols
  rw [List.map_id] at hzip
  rw [hzip]
  apply List.map_congr_left
  intro s _
  simp only [id, Function.comp]
  unfold quantileAxis0Half
  refine congrArg _ ?_
  apply List.map_congr_left
  intro t _
  exact npQuantileHalf_eq_median _

theorem foldl_min_le (ps : List (Int × ℚ)) (a : Int) :
    ps.foldl (fun m q => min m q.1) a ≤ a := by
  induction ps generalizing a with
  | nil => exact le_refl a
  | cons q qs ih => exact le_trans (ih (min a q.1)) (min_le_left a q.1)

theorem foldl_min_le_of_mem (ps : List (Int × ℚ)) (a : Int) (q : Int × ℚ) (hq : q ∈ ps) :
    ps.foldl (fun m r => min m r.1) a ≤ q.1 := by
  induction ps generalizing a with
  | nil => cases hq
  | cons r rs ih =>
    rcases List.mem_cons.mp hq with h | h
    · subst h
      exact le_trans (foldl_min_le rs (min a q.1)) (min_le_right a q.1)
    · exact ih (min a r.1) h

theorem le_foldl_max (ps : List (Int × ℚ)) (a : Int) :
    a ≤ ps.foldl (fun m q => max m q.1) a := by
  induction ps generalizing a with
  | nil => exact le_refl a
  | cons q qs ih => exact le_trans (le_max_left a q.1) (ih (max a q.1))

theorem le_foldl_max_of_mem (ps : List (Int × ℚ)) (a : Int) (q : Int × ℚ) (hq : q ∈ ps) :
    q.1 ≤ ps.foldl (fun m r => max m r.1) a := by
  induction ps generalizing a with
  | nil => cases hq
  | cons r rs ih =>
    rcases List.mem_cons.mp hq with h | h
    · subst h
      exact le_trans (le_max_right a q.1) (le_foldl_max rs (max a q.1))
    · exact ih (max a r.1) h

theorem dateMin_le_mem (pairs : List (Int × ℚ)) (d : Int) (p : ℚ) (h : (d, p) ∈ pairs) :
    dateMin pairs ≤ d := by
  cases pairs with
  | nil => cases h
  | cons p0 ps =>
    rcases List.mem_cons.mp h with h0 | h0
    · have : p0 = (d, p) := h0.symm
      subst this
      exact foldl_min_le ps d
    · exact foldl_min_le_of_mem ps p0.1 (d, p) h0

theorem mem_le_dateMax (pairs : List (Int × ℚ)) (d : Int) (p : ℚ) (h : (d, p) ∈ pairs) :
    d ≤ dateMax pairs := by
  cases pairs with
  | nil => cases h
  | cons p0 ps =>
    rcases List.mem_cons.mp h with h0 | h0
    · have : p0 = (d, p) := h0.symm
      subst this
      exact le_foldl_max ps d
    · exact le_foldl_max_of_mem ps p0.1 (d, p) h0

theorem assocLookup_eq_some (pairs : List (Int × ℚ))
    (hnd : (pairs.map Prod.fst).Nodup) (d : Int) (p : ℚ) (h : (d, p) ∈ pairs) :
    assocLookup d pairs = some p := by
  induction pairs with
  | nil => cases h
  | cons q qs ih =>
    by_cases hqd : q.1 = d
    · have hfind : (q :: qs).find? (fun r => r.1 == d) = some q :=
        List.find?_cons_of_pos _ (by simp [hqd])
      unfold assocLookup
      rw [hfind]
      rcases List.mem_cons.mp h with h0 | h0
      · rw [← h0]
        rfl
      · exfalso
        have hkey : d ∈ qs.map Prod.fst := List.mem_map.mpr ⟨(d, p), h0, rfl⟩
        have : q.1 ∉ qs.map Prod.fst := (List.nodup_cons.mp hnd).1
        rw [hqd] at this
        exact this hkey
    · have hfind : (q :: qs).find? (fun r => r.1 == d) = qs.find? (fun r => r.1 == d) :=
        List.find?_cons_of_neg _ (by simp [hqd])
      unfold assocLookup
      rw [hfind]
      have h0 : (d, p) ∈ qs := by
        rcases List.mem_cons.mp h with h1 | h1
        · exact absurd (congrArg Prod.fst h1.symm) hqd
        · exact h1
      exact ih (List.nodup_cons.mp hnd).2 h0

theorem assocLookup_eq_none (pairs : List (Int × ℚ)) (d : Int)
    (h : d ∉ pairs.map Prod.fst) : assocLookup d pairs = none := by
  unfold assocLookup
  rw [List.find?_eq_none.mpr]
  · rfl
  · intro x hx
    simp only [beq_iff_eq]
    intro hxd
    exact h (List.mem_map.mpr ⟨x, hx, hxd⟩)

theorem assocLookup_some_mem (pairs : List (Int × ℚ)) (d : Int) (p : ℚ)
    (h : assocLookup d pairs = some p) : (d, p) ∈ pairs := by
  unfold assocLookup at h
  cases hf : pairs.find? (fun q => q.1 == d) with
  | none =>
    rw [hf] at h
    cases h
  | some q =>
    rw [hf] at h
    obtain ⟨q1, q2⟩ := q
    have hq1 : q1 = d := by simpa using List.find?_some hf
    have hq2 : q2 = p := by simpa using h
    have hmem := List.mem_of_find?_eq_some hf
    rw [hq1, hq2] at hmem
    exact hmem

theorem assocLookup_none_not_mem (pairs : List (Int × ℚ)) (d : Int)
    (h : assocLookup d pairs = none) : d ∉ pairs.map Prod.fst := by
  intro hd
  rw [List.mem_map] at hd
  obtain ⟨q, hq, hqd⟩ := hd
  unfold assocLookup at h
  cases hf : pairs.find? (fun r => r.1 == d) with
  | some r =>
    rw [hf] at h
    cases h
  | none =>
    rw [List.find?_eq_none] at hf
    exact hf q hq (by simp [hqd])

theorem resample_mem_of_between (pairs : List (Int × ℚ)) (hne : pairs ≠ []) (d : Int)
    (h1 : dateMin pairs ≤ d) (h2 : d ≤ dateMax pairs) :
    (d, assocLookup d pairs) ∈ resampleD_asfreq pairs := by
  cases pairs with
  | nil => exact absurd rfl hne
  | cons p0 ps =>
    rw [show resampleD_asfreq (p0 :: ps) =
        (List.range ((dateMax (p0 :: ps) - dateMin (p0 :: ps)).toNat + 1)).map
          (fun i : Nat => (dateMin (p0 :: ps) + (i : Int),
            assocLookup (dateMin (p0 :: ps) + (i : Int)) (p0 :: ps)))
        from rfl]
    rw [List.mem_map]
    refine ⟨(d - dateMin (p0 :: ps)).toNat, ?_, ?_⟩
    · rw [List.mem_range]
      omega
    · have heq : dateMin (p0 :: ps) + ((d - dateMin (p0 :: ps)).toNat : Int) = d := by omega
      rw [heq]

theorem resample_mem_char (pairs : List (Int × ℚ)) (d : Int) (v : Option ℚ)
    (h : (d, v) ∈ resampleD_asfreq pairs) : v = assocLookup d pairs := by
  cases pairs with
  | nil => simp [resampleD_asfreq] at h
  | cons p0 ps =>
    rw [show resampleD_asfreq (p0 :: ps) =
        (List.range ((dateMax (p0 :: ps) - dateMin (p0 :: ps)).toNat + 1)).map
          (fun i : Nat => (dateMin (p0 :: ps) + (i : Int),
            assocLookup (dateMin (p0 :: ps) + (i : Int)) (p0 :: ps)))
        from rfl] at h
    rw [List.mem_map] at h
    obtain ⟨i, _, hi⟩ := h
    have h1 : dateMin (p0 :: ps) + (i : Int) = d := congrArg Prod.fst hi
    have h2 : assocLookup (dateMin (p0 :: ps) + (i : Int)) (p0 :: ps) = v :=
      congrArg Prod.snd hi
    rw [← h2, h1]

/-- C7: `resample('D').asfreq()` keeps every original (date, price) pair
unchanged, inserts an explicit missing marker for every calendar day in the
spanned range that the original series lacks, and contains nothing else —
no value is interpolated or filled. -/
theorem resample_preserves_and_marks (pairs : List (Int × ℚ))
    (hnd : (pairs.map Prod.fst).Nodup) (hne : pairs ≠ []) :
    (∀ d p, (d, p) ∈ pairs → (d, some p) ∈ resampleD_asfreq pairs) ∧
    (∀ d : Int, dateMin pairs ≤ d → d ≤ dateMax pairs → d ∉ pairs.map Prod.fst →
      (d, (none : Option ℚ)) ∈ resampleD_asfreq pairs) ∧
    (∀ d v, (d, v) ∈ resampleD_asfreq pairs →
      (∃ p, v = some p ∧ (d, p) ∈ pairs) ∨ (v = none ∧ d ∉ pairs.map Prod.fst)) := by
  refine ⟨?_, ?_, ?_⟩
  · intro d p hdp
    have hl := assocLookup_eq_some pairs hnd d p hdp
    have hmem := resample_mem_of_between pairs hne d
      (dateMin_le_mem pairs d p hdp) (mem_le_dateMax pairs d p hdp)
    rw [hl] at hmem
    exact hmem
  · intro d h1 h2 hnotin
    have hl := assocLookup_eq_none pairs d hnotin
    have hmem := resample_mem_of_between pairs hne d h1 h2
    rw [hl] at hmem
    exact hmem
  · intro d v hdv
    have hv := resample_mem_char pairs d v hdv
    cases v with
    | some p => exact Or.inl ⟨p, rfl, assocLookup_some_mem pairs d p hv.symm⟩
    | none => exact Or.inr ⟨rfl, assocLookup_none_not_mem pairs d hv.symm⟩

theorem resample_preserves_and_marks_wit :
    ((0 : Int), some (10 : ℚ)) ∈ resampleD_asfreq [(0, 10), (2, 12)] ∧
    ((1 : Int), (none : Option ℚ)) ∈ resampleD_asfreq [(0, 10), (2, 12)] ∧
    ((2 : Int), some (12 : ℚ)) ∈ resampleD_asfreq [(0, 10), (2, 12)] := by
  have h := resample_preserves_and_marks [(0, 10), (2, 12)] (by decide) (by decide)
  exact ⟨h.1 0 10 (by decide), h.2.1 1 (by decide) (by decide) (by decide),
    h.1 2 12 (by decide)⟩

end ChronosDemo
